import Mathlib

/-!
Verification of the activity-detection-and-notification core of
gemini-cli-ntfy against its specification.

The Go sources are shallowly embedded as pure Lean functions:
  * `pkg/notification/backstop_notifier.go` — the backstop notification
    engine, embedded as a record `BNState` together with one pure
    transition function per method; wall-clock instants are abstracted as
    natural numbers, and the one-shot timer is represented by the deadline
    of the most recently scheduled `time.AfterFunc` call (`none` after
    `Stop`).  The timer callback (`sendBackstopNotification`) may race with
    `Stop` in Go, so in the trace semantics a `timerFire` event is allowed
    at any point; the callback itself re-validates all suppression flags,
    exactly as the source does.
  * `pkg/monitor/output_monitor.go` — the escape-sequence classifier
    `containsVisibleContent`, the line-buffering logic of `HandleData` /
    `Flush`, the bell scan of `processLine`, and the
    `TerminalSequenceDetector` with its rolling buffer, embedded over
    `List Nat` byte strings.
  * `pkg/monitor` terminal state (`TerminalState.SetFocused`).
-/

namespace GeminiNtfy

/-! ## Backstop notification engine (`pkg/notification/backstop_notifier.go`) -/

/-- State of a `BackstopNotifier`.  Times are abstract instants (`Nat`);
`timer` is the pending deadline of the most recent `time.AfterFunc`
schedule, or `none` after `Timer.Stop`. -/
structure BNState where
  timeout : Nat
  lastNotificationTime : Nat
  lastActivityTime : Nat
  lastUserInteraction : Nat
  timer : Option Nat
  backstopSent : Bool
  backstopDisabled : Bool
  idleNotificationSentSinceLastInteraction : Bool
  deriving DecidableEq, Repr

/-- `NewBackstopNotifier(underlying, timeout)` at instant `now`:
zero flags, activity/interaction stamps set to now, timer armed iff
`timeout > 0`. -/
def NewBackstopNotifier (timeout now : Nat) : BNState :=
  { timeout := timeout
    lastNotificationTime := 0
    lastActivityTime := now
    lastUserInteraction := now
    timer := if 0 < timeout then some (now + timeout) else none
    backstopSent := false
    backstopDisabled := false
    idleNotificationSentSinceLastInteraction := false }

/-- `BackstopNotifier.Send`: stamps activity and notification times, clears
`backstopSent`, stops the timer and re-arms it when `timeout > 0`.  It does
not touch `backstopDisabled` or the since-last-interaction flag. -/
def SendStep (s : BNState) (now : Nat) : BNState :=
  { s with
    lastActivityTime := now
    lastNotificationTime := now
    backstopSent := false
    timer := if 0 < s.timeout then some (now + s.timeout) else none }

/-- `BackstopNotifier.MarkActivity`: stamps activity, clears `backstopSent`
and `backstopDisabled`, stops the timer and re-arms it when
`timeout > 0`. -/
def MarkActivityStep (s : BNState) (now : Nat) : BNState :=
  { s with
    lastActivityTime := now
    backstopSent := false
    backstopDisabled := false
    timer := if 0 < s.timeout then some (now + s.timeout) else none }

/-- `BackstopNotifier.sendBackstopNotification` (the timer callback).
Returns the new state and whether a notification was delivered to the
underlying notifier.  The source never assigns `bn.timer` here and does
not restart the timer after firing. -/
def sendBackstopNotification (s : BNState) (now : Nat) : BNState × Bool :=
  if s.backstopSent || s.backstopDisabled then (s, false)
  else if s.idleNotificationSentSinceLastInteraction then (s, false)
  else
    ({ s with
       lastNotificationTime := now
       backstopSent := true
       idleNotificationSentSinceLastInteraction := true }, true)

/-- `BackstopNotifier.SetBackstopSent` (the bell path sets `true`):
sets the flag; when setting it, also stops the timer. -/
def SetBackstopSentStep (s : BNState) (sent : Bool) : BNState :=
  { s with
    backstopSent := sent
    timer := if sent then none else s.timer }

/-- `BackstopNotifier.ResetSession` (screen-clear path): clears all three
suppression flags, stamps activity, stops the timer and re-arms it when
`timeout > 0`. -/
def ResetSessionStep (s : BNState) (now : Nat) : BNState :=
  { s with
    backstopSent := false
    backstopDisabled := false
    lastActivityTime := now
    idleNotificationSentSinceLastInteraction := false
    timer := if 0 < s.timeout then some (now + s.timeout) else none }

/-- `BackstopNotifier.DisableBackstopTimer` (user-input path): sets
`backstopDisabled`, stamps the interaction, clears the
since-last-interaction flag, stops the timer. -/
def DisableBackstopTimerStep (s : BNState) (now : Nat) : BNState :=
  { s with
    backstopDisabled := true
    lastUserInteraction := now
    idleNotificationSentSinceLastInteraction := false
    timer := none }

/-- `BackstopNotifier.Close`: stops the timer. -/
def CloseStep (s : BNState) : BNState :=
  { s with timer := none }

/-- An engine event.  `timerFire` is the timer callback running (allowed at
any point, since in Go a callback may race with `Timer.Stop`); the other
events are the public methods of `BackstopNotifier`. -/
inductive BNEvent where
  | send (now : Nat)
  | markActivity (now : Nat)
  | timerFire (now : Nat)
  | setBackstopSent (sent : Bool)
  | resetSession (now : Nat)
  | disableBackstopTimer (now : Nat)
  | close
  deriving DecidableEq, Repr

/-- One engine transition; the second component counts backstop
notifications delivered through `sendBackstopNotification` by this event
(0 or 1).  `send` forwards a caller notification but is not a backstop
delivery. -/
def BNStep (s : BNState) : BNEvent → BNState × Nat
  | .send n => (SendStep s n, 0)
  | .markActivity n => (MarkActivityStep s n, 0)
  | .timerFire n =>
      let r := sendBackstopNotification s n
      (r.1, if r.2 then 1 else 0)
  | .setBackstopSent b => (SetBackstopSentStep s b, 0)
  | .resetSession n => (ResetSessionStep s n, 0)
  | .disableBackstopTimer n => (DisableBackstopTimerStep s n, 0)
  | .close => (CloseStep s, 0)

/-- Run a sequence of engine events, returning the final state and the
total number of backstop notifications delivered. -/
def BNRun (s : BNState) : List BNEvent → BNState × Nat
  | [] => (s, 0)
  | e :: es =>
      let r := BNStep s e
      let rest := BNRun r.1 es
      (rest.1, r.2 + rest.2)

/-- Events that are neither a user interaction nor a session reset. -/
def nonWindowBoundary (e : BNEvent) : Prop :=
  (∀ n, e ≠ BNEvent.resetSession n) ∧ (∀ n, e ≠ BNEvent.disableBackstopTimer n)

instance : (e : BNEvent) → Decidable (nonWindowBoundary e)
  | .send _ => isTrue ⟨fun _ h => (nomatch h), fun _ h => (nomatch h)⟩
  | .markActivity _ => isTrue ⟨fun _ h => (nomatch h), fun _ h => (nomatch h)⟩
  | .timerFire _ => isTrue ⟨fun _ h => (nomatch h), fun _ h => (nomatch h)⟩
  | .setBackstopSent _ => isTrue ⟨fun _ h => (nomatch h), fun _ h => (nomatch h)⟩
  | .resetSession n => isFalse (fun h => h.1 n rfl)
  | .disableBackstopTimer n => isFalse (fun h => h.2 n rfl)
  | .close => isTrue ⟨fun _ h => (nomatch h), fun _ h => (nomatch h)⟩

/-- Events that are a `MarkActivity` call or a timer fire. -/
def isMarkOrFire : BNEvent → Bool
  | .markActivity _ => true
  | .timerFire _ => true
  | _ => false

/-- Events that can occur after a bell without re-enabling the backstop:
timer fires, further bells (`SetBackstopSent true`), user interactions and
`Close` — everything except `MarkActivity`, `Send`, `ResetSession` and
`SetBackstopSent false`. -/
def isBellPreserving : BNEvent → Bool
  | .timerFire _ => true
  | .setBackstopSent b => b
  | .disableBackstopTimer _ => true
  | .close => true
  | _ => false

/-! ## Escape-sequence classifier (`containsVisibleContent`) -/

/-- Inner CSI loop of `containsVisibleContent`: skip until a terminator
byte in `0x40`–`0x7E` has been consumed. -/
def skipCSI : List Nat → List Nat
  | [] => []
  | c :: rest => if 64 ≤ c ∧ c ≤ 126 then rest else skipCSI rest

/-- Inner OSC loop of `containsVisibleContent`: skip until a BEL or an
`ESC \x5c` pair has been consumed. -/
def skipOSC : List Nat → List Nat
  | [] => []
  | c :: rest =>
    if c = 7 then rest
    else if c = 27 ∧ rest.headD 0 = 92 then rest.tail
    else skipOSC rest

/-- `containsVisibleContent` from `pkg/monitor/output_monitor.go`: does the
byte slice contain a visible character outside the skipped escape
sequences?  Note that a bare `ESC` consumes the following byte without a
visibility check (the Go loop increments past `next` before the visible
checks run on the `ESC` byte itself). -/
def containsVisibleContent : List Nat → Bool
  | [] => false
  | b :: rest =>
    if b = 27 then
      match rest with
      | [] => false
      | next :: rest2 =>
        if next = 91 then containsVisibleContent (skipCSI rest2)
        else if next = 93 then containsVisibleContent (skipOSC rest2)
        else if next = 40 ∨ next = 41 then containsVisibleContent (rest2.drop 1)
        else containsVisibleContent rest2
    else if b = 155 then containsVisibleContent (skipCSI rest)
    else if b = 10 ∨ b = 13 ∨ b = 9 then true
    else if 32 ≤ b ∧ b ≤ 126 then true
    else if 128 ≤ b then true
    else containsVisibleContent rest
termination_by l => l.length
decreasing_by
  all_goals
    (have hs : ∀ l : List Nat, (skipCSI l).length ≤ l.length := by
      intro l
      induction l with
      | nil => simp [skipCSI]
      | cons c r ih =>
          simp only [skipCSI]
          split
          · simp only [List.length_cons]
            omega
          · simp only [List.length_cons]
            omega
     have ho : ∀ l : List Nat, (skipOSC l).length ≤ l.length := by
      intro l
      induction l with
      | nil => simp [skipOSC]
      | cons c r ih =>
          simp only [skipOSC]
          split
          · simp only [List.length_cons]
            omega
          · split
            · have ht : r.tail.length ≤ r.length := by
                cases r <;> simp
              simp only [List.length_cons]
              omega
            · simp only [List.length_cons]
              omega
     simp only [List.length_cons, List.length_drop]
     first
      | exact Nat.lt_of_le_of_lt (hs _) (by omega)
      | exact Nat.lt_of_le_of_lt (ho _) (by omega)
      | omega)

/-- States of the single-pass scanner equivalent to
`containsVisibleContent`: outside any sequence, after a bare `ESC`, inside
a CSI body, inside an OSC body, inside an OSC body just after an `ESC`,
and after `ESC (` / `ESC )` awaiting the designation byte. -/
inductive ScanState where
  | top
  | sawEsc
  | inCSI
  | inOSC
  | inOSCEsc
  | sawCharset
  deriving DecidableEq, Repr

/-- One scanner step: either a next state or an early `true` answer. -/
def scanByte : ScanState → Nat → ScanState ⊕ Bool
  | .top, b =>
      if b = 27 then Sum.inl .sawEsc
      else if b = 155 then Sum.inl .inCSI
      else if b = 10 ∨ b = 13 ∨ b = 9 then Sum.inr true
      else if 32 ≤ b ∧ b ≤ 126 then Sum.inr true
      else if 128 ≤ b then Sum.inr true
      else Sum.inl .top
  | .sawEsc, b =>
      if b = 91 then Sum.inl .inCSI
      else if b = 93 then Sum.inl .inOSC
      else if b = 40 ∨ b = 41 then Sum.inl .sawCharset
      else Sum.inl .top
  | .inCSI, b => if 64 ≤ b ∧ b ≤ 126 then Sum.inl .top else Sum.inl .inCSI
  | .inOSC, b =>
      if b = 7 then Sum.inl .top
      else if b = 27 then Sum.inl .inOSCEsc
      else Sum.inl .inOSC
  | .inOSCEsc, b =>
      if b = 92 then Sum.inl .top
      else if b = 7 then Sum.inl .top
      else if b = 27 then Sum.inl .inOSCEsc
      else Sum.inl .inOSC
  | .sawCharset, _ => Sum.inl .top

/-- Run the scanner over a byte list: a bounds-safe forward-only single
pass consuming exactly one byte per step, answering `false` at end of
input. -/
def scanList (st : ScanState) : List Nat → Bool
  | [] => false
  | b :: rest =>
    match scanByte st b with
    | Sum.inl st2 => scanList st2 rest
    | Sum.inr r => r

/-! ## Spec-side byte classes and escape-sequence grammar (from §4.1/§8 of
the spec): recognized escape/control sequences and visible bytes. -/

/-- CSI terminator byte `0x40`–`0x7E`. -/
def finalByte (b : Nat) : Prop := 64 ≤ b ∧ b ≤ 126

instance (b : Nat) : Decidable (finalByte b) :=
  inferInstanceAs (Decidable (64 ≤ b ∧ b ≤ 126))

/-- Control bytes that the classifier never reports as visible: control
range below `0x20` other than tab, newline, carriage return and `ESC`
(which opens sequences), plus `DEL`. -/
def controlByte (b : Nat) : Prop :=
  (b < 32 ∧ b ≠ 9 ∧ b ≠ 10 ∧ b ≠ 13 ∧ b ≠ 27) ∨ b = 127

instance (b : Nat) : Decidable (controlByte b) :=
  inferInstanceAs (Decidable (_ ∨ _))

/-- Visible bytes per the spec: printable ASCII, newline, carriage return,
tab, or at least `0x80`; excluding `0x9B`, which is itself the 8-bit CSI
introducer and therefore opens a sequence rather than lying outside one. -/
def visibleByte (b : Nat) : Prop :=
  (b = 10 ∨ b = 13 ∨ b = 9 ∨ (32 ≤ b ∧ b ≤ 126) ∨ 128 ≤ b) ∧ b ≠ 155

instance (b : Nat) : Decidable (visibleByte b) :=
  inferInstanceAs (Decidable (_ ∧ _))

/-- One recognized escape/control token per §4.1 of the spec: a CSI
sequence, an OSC sequence, a character-set designation, a bare 8-bit CSI
sequence, or a single non-visible control byte. -/
inductive NoiseTok : List Nat → Prop where
  | csi (body : List Nat) (f : Nat)
      (hbody : ∀ c ∈ body, ¬ finalByte c) (hf : finalByte f) :
      NoiseTok (27 :: 91 :: (body ++ [f]))
  | osc (body term : List Nat)
      (hbody : ∀ c ∈ body, c ≠ 7 ∧ c ≠ 27)
      (hterm : term = [7] ∨ term = [27, 92]) :
      NoiseTok (27 :: 93 :: (body ++ term))
  | charset (op x : Nat) (hop : op = 40 ∨ op = 41) : NoiseTok [27, op, x]
  | csi8 (body : List Nat) (f : Nat)
      (hbody : ∀ c ∈ body, ¬ finalByte c) (hf : finalByte f) :
      NoiseTok (155 :: (body ++ [f]))
  | ctrl (b : Nat) (hb : controlByte b) : NoiseTok [b]

/-- A byte slice consisting only of recognized escape/control tokens. -/
inductive Noise : List Nat → Prop where
  | nil : Noise []
  | cons (t r : List Nat) : NoiseTok t → Noise r → Noise (t ++ r)

/-! ## Substring search (`bytes.Contains`) -/

/-- Is `p` an initial segment of `l`? -/
def startsWith : List Nat → List Nat → Bool
  | [], _ => true
  | _ :: _, [] => false
  | p :: ps, a :: bs => p = a && startsWith ps bs

/-- `bytes.Contains l sub`: does `sub` occur as a contiguous substring? -/
def containsSub : List Nat → List Nat → Bool
  | [], sub => startsWith sub []
  | a :: t, sub => startsWith sub (a :: t) || containsSub t sub

/-! ## Output monitor line buffering (`HandleData` / `Flush` /
`processLine`) -/

/-- The line scan of `HandleData` on a byte buffer: the complete lines
(segments before each newline, newline excluded) in order, and the
trailing bytes after the last newline, which stay buffered. -/
def splitLines : List Nat → List (List Nat) × List Nat
  | [] => ([], [])
  | b :: rest =>
    let p := splitLines rest
    if b = 10 then ([] :: p.1, p.2)
    else
      match p.1 with
      | [] => ([], b :: p.2)
      | l :: ls => ((b :: l) :: ls, p.2)

/-- `HandleData` on the line buffer: append the chunk, pass each complete
line to `processLine` (first component) and keep the incomplete trailing
line (second component). -/
def HandleDataLines (buf data : List Nat) : List (List Nat) × List Nat :=
  splitLines (buf ++ data)

/-- A whole stream of `HandleData` calls: all lines passed to
`processLine`, in order, and the final line buffer. -/
def runMonitor (buf : List Nat) : List (List Nat) → List (List Nat) × List Nat
  | [] => ([], buf)
  | c :: cs =>
    let p := HandleDataLines buf c
    let q := runMonitor p.2 cs
    (p.1 ++ q.1, q.2)

/-- `Flush`: the lines it passes to `processLine` — the buffered partial
line exactly once when non-empty, nothing otherwise. -/
def FlushLines (buf : List Nat) : List (List Nat) :=
  if buf = [] then [] else [buf]

/-- The bell scan of `processLine`: does the line contain BEL (`0x07`)? -/
def processLineBell (line : List Nat) : Bool :=
  containsSub line [7]

/-! ## Terminal sequence detector (`TerminalSequenceDetector`) -/

/-- Handler events, in the order `DetectSequences` emits them. -/
inductive TEvent where
  | screenClear
  | focusIn
  | focusOut
  | titleChange (title : List Nat)
  deriving DecidableEq, Repr

/-- `screenClearSequences` from the source: `ESC [2J`, `ESC [3J`,
`ESC [H`, `ESC [0J`, `ESC [1J`, `ESC c`. -/
def screenClearSequences : List (List Nat) :=
  [[27, 91, 50, 74], [27, 91, 51, 74], [27, 91, 72],
   [27, 91, 48, 74], [27, 91, 49, 74], [27, 99]]

/-- `statusInterferingSequences` from the source: `ESC [r`, the alternate
screen buffer switches, `ESC D`, `ESC M`, `ESC [S`, `ESC [T`. -/
def statusInterferingSequences : List (List Nat) :=
  [[27, 91, 114],
   [27, 91, 63, 52, 55, 104],
   [27, 91, 63, 49, 48, 52, 55, 104],
   [27, 91, 63, 49, 48, 52, 57, 104],
   [27, 91, 63, 52, 55, 108],
   [27, 91, 63, 49, 48, 52, 55, 108],
   [27, 91, 63, 49, 48, 52, 57, 108],
   [27, 68], [27, 77], [27, 91, 83], [27, 91, 84]]

/-- Focus-in escape code `ESC [I`. -/
def focusInSequence : List Nat := [27, 91, 73]

/-- Focus-out escape code `ESC [O`. -/
def focusOutSequence : List Nat := [27, 91, 79]

/-- Inner `j` loop of `detectBottomLineClear` looking for the
cursor-position terminator `H` (72) or `f` (102): the Go loop advances an
index `j` to the first such byte and fails when `j` reaches the end, which
on the suffix starting at `j` is exactly this scan; `some r` is the bytes
after the terminator (positions `j+1 ..`). -/
def findHF : List Nat → Option (List Nat)
  | [] => none
  | c :: r => if c = 72 ∨ c = 102 then some r else findHF r

/-- Inner `k` lookahead loop of `detectBottomLineClear`: scan at most `w`
start positions (Go: `k < j+20` with `k` from `j+1`, so 19 positions) for
a line-erase `ESC [K` or `ESC [2K`.  Go's bound `k < len(data)-2` says at
least three bytes remain at `k`, and `k+3 < len(data)` that a fourth
exists, which on the suffix at `k` are the length guards below. -/
def kScan : Nat → List Nat → Bool
  | 0, _ => false
  | _, [] => false
  | w + 1, c :: r =>
    if 3 ≤ (c :: r).length ∧ c = 27 ∧ r.headD 0 = 91 ∧
        ((r.drop 1).headD 0 = 75 ∨
          (4 ≤ (c :: r).length ∧ (r.drop 1).headD 0 = 50 ∧
            (r.drop 2).headD 0 = 75)) then
      true
    else kScan w r

/-- Outer `i` loop of `detectBottomLineClear` over candidate `ESC [`
starts.  Go iterates `i < len(data)-5`, i.e. over the suffixes of length
more than 5; at each it requires `ESC [`, finds the first `H`/`f` from
`i+2` onward, and looks ahead 19 positions for a line erase. -/
def blcScan : List Nat → Bool
  | [] => false
  | c :: r =>
    if 5 < (c :: r).length then
      (if c = 27 ∧ r.headD 0 = 91 then
          match findHF (r.drop 1) with
          | some after => kScan 19 after
          | none => false
        else false) ||
        blcScan r
    else false

/-- `detectBottomLineClear` from the source: cursor positioning followed
within a 20-byte window by a line erase, or an erase-display
`ESC [0J` / `ESC [J`. -/
def detectBottomLineClear (data : List Nat) : Bool :=
  blcScan data || containsSub data [27, 91, 48, 74] || containsSub data [27, 91, 74]

/-- Body of an OSC title sequence after `ESC ] d ;`: the bytes before the
first BEL or `ESC \x5c` terminator, and the remainder after the
terminator; `none` when no terminator follows (truncated sequence, or an
`ESC` in the body not followed by `\x5c`, which the title pattern cannot
match). -/
def titleBody : List Nat → Option (List Nat × List Nat)
  | [] => none
  | c :: rest =>
    if c = 7 then some ([], rest)
    else if c = 27 then
      if rest.headD 0 = 92 then some ([], rest.tail) else none
    else
      match titleBody rest with
      | some p => some (c :: p.1, p.2)
      | none => none

/-- Does a title match start at the head of `l` (header `ESC ] d ;` with
`d` one of the digits `0`, `1`, `2`, followed by a terminated body)?  If
so, the captured body and the bytes after the match. -/
def titleAt (l : List Nat) : Option (List Nat × List Nat) :=
  if l.headD 0 = 27 ∧ (l.drop 1).headD 0 = 93 ∧ (l.drop 3).headD 0 = 59 ∧
      ((l.drop 2).headD 0 = 48 ∨ (l.drop 2).headD 0 = 49 ∨
        (l.drop 2).headD 0 = 50) ∧ 4 ≤ l.length then
    titleBody (l.drop 4)
  else none

/-- Fuel-driven scan for title matches: try a match at each position,
resuming after the match on success and one byte further on failure.  Each
step consumes at least one byte of the list and one unit of fuel, so fuel
equal to the list length always completes the scan. -/
def findTitlesF : Nat → List Nat → List (List Nat)
  | 0, _ => []
  | _, [] => []
  | fuel + 1, b :: t =>
    match titleAt (b :: t) with
    | some p => p.1 :: findTitlesF fuel p.2
    | none => findTitlesF fuel t

/-- All (leftmost, non-overlapping) matches of the OSC title pattern
`ESC ] (0|1|2) ; body (BEL | ESC \x5c)`, in order, as produced by
`titlePattern.FindAllSubmatch`. -/
def findTitles (l : List Nat) : List (List Nat) :=
  findTitlesF l.length l

/-- Does any of the sequences occur in the buffer? -/
def anyContains (buf : List Nat) (seqs : List (List Nat)) : Bool :=
  seqs.any (fun s => containsSub buf s)

/-- The screen-clear decision of `DetectSequences` over the rolling
buffer. -/
def foundScreenClear (buf : List Nat) : Bool :=
  anyContains buf screenClearSequences ||
    anyContains buf statusInterferingSequences ||
    detectBottomLineClear buf

/-- The handler events one `DetectSequences` call emits, as a function of
the rolling buffer contents after appending the chunk: screen clear, focus
in, focus out, then the last title match. -/
def detectEvents (buf : List Nat) : List TEvent :=
  (if foundScreenClear buf then [TEvent.screenClear] else []) ++
    (if containsSub buf focusInSequence then [TEvent.focusIn] else []) ++
    (if containsSub buf focusOutSequence then [TEvent.focusOut] else []) ++
    (match (findTitles buf).getLast? with
     | some t => [TEvent.titleChange t]
     | none => [])

/-- The buffer cap (`maxBufferSize` in the source). -/
def maxBufferSize : Nat := 512

/-- End-of-call trimming: once the buffer exceeds the cap, keep only the
most recent `maxBufferSize` bytes. -/
def trimBuf (l : List Nat) : List Nat :=
  if maxBufferSize < l.length then l.drop (l.length - maxBufferSize) else l

/-- The detector state: the rolling buffer accumulating across calls. -/
structure Detector where
  buffer : List Nat
  deriving DecidableEq, Repr

/-- A fresh detector (`NewTerminalSequenceDetector`). -/
def NewTerminalSequenceDetector : Detector := ⟨[]⟩

/-- One `DetectSequences` call with a non-nil handler: append the chunk to
the rolling buffer, emit the events the grown buffer yields, then trim the
buffer to the cap. -/
def DetectSequencesStep (d : Detector) (data : List Nat) : Detector × List TEvent :=
  (⟨trimBuf (d.buffer ++ data)⟩, detectEvents (d.buffer ++ data))

/-- Successive `DetectSequences` calls on one detector: final state and
the concatenation of all emitted events. -/
def runDetect (d : Detector) : List (List Nat) → Detector × List TEvent
  | [] => (d, [])
  | c :: cs =>
    let p := DetectSequencesStep d c
    let q := runDetect p.1 cs
    (q.1, p.2 ++ q.2)

/-! ## Terminal state (`TerminalState`) -/

/-- `TerminalState` from `pkg/monitor`: title (as bytes), focus flag, last
focus-change instant, focus-reporting flag. -/
structure TerminalState where
  title : List Nat
  focused : Bool
  lastFocusChange : Nat
  focusReportingEnabled : Bool
  deriving DecidableEq, Repr

/-- `NewTerminalState` at instant `now`: focused by default, focus-change
stamp set to construction time. -/
def NewTerminalState (now : Nat) : TerminalState :=
  { title := [], focused := true, lastFocusChange := now,
    focusReportingEnabled := false }

/-- `TerminalState.SetFocused`: update focus and stamp the change time
only when the value actually changes. -/
def TerminalState.SetFocused (ts : TerminalState) (focused : Bool) (now : Nat) :
    TerminalState :=
  if ts.focused ≠ focused then
    { ts with focused := focused, lastFocusChange := now }
  else ts

theorem BNStep_delivered_le_one (s : BNState) (e : BNEvent) :
    (BNStep s e).2 ≤ 1 := by
  cases e with
  | timerFire n =>
      simp only [BNStep]
      split <;> simp
  | send n => exact Nat.zero_le 1
  | markActivity n => exact Nat.zero_le 1
  | setBackstopSent b => exact Nat.zero_le 1
  | resetSession n => exact Nat.zero_le 1
  | disableBackstopTimer n => exact Nat.zero_le 1
  | close => exact Nat.zero_le 1

theorem BNStep_idle_of_delivered (s : BNState) (e : BNEvent)
    (h : 0 < (BNStep s e).2) :
    (BNStep s e).1.idleNotificationSentSinceLastInteraction = true := by
  cases e with
  | timerFire n =>
      simp only [BNStep, sendBackstopNotification] at h ⊢
      by_cases h1 : s.backstopSent = true ∨ s.backstopDisabled = true
      · simp [h1] at h
      · by_cases h2 : s.idleNotificationSentSinceLastInteraction = true
        · simp [h1, h2] at h
        · simp [h1, h2]
  | send n => simp [BNStep] at h
  | markActivity n => simp [BNStep] at h
  | setBackstopSent b => simp [BNStep] at h
  | resetSession n => simp [BNStep] at h
  | disableBackstopTimer n => simp [BNStep] at h
  | close => simp [BNStep] at h

theorem BNStep_idle_preserved (s : BNState) (e : BNEvent)
    (hidle : s.idleNotificationSentSinceLastInteraction = true)
    (hb : nonWindowBoundary e) :
    (BNStep s e).1.idleNotificationSentSinceLastInteraction = true ∧
      (BNStep s e).2 = 0 := by
  rcases hb with ⟨hr, hd⟩
  cases e with
  | send n => simpa [BNStep, SendStep] using hidle
  | markActivity n => simpa [BNStep, MarkActivityStep] using hidle
  | timerFire n =>
      simp only [BNStep, sendBackstopNotification]
      by_cases h1 : s.backstopSent = true ∨ s.backstopDisabled = true
      · simp [h1, hidle]
      · simp [h1, hidle]
  | setBackstopSent b => simpa [BNStep, SetBackstopSentStep] using hidle
  | resetSession n => exact absurd rfl (hr n)
  | disableBackstopTimer n => exact absurd rfl (hd n)
  | close => simpa [BNStep, CloseStep] using hidle

theorem BNRun_zero_of_idle (s : BNState) (evts : List BNEvent)
    (hidle : s.idleNotificationSentSinceLastInteraction = true)
    (hb : ∀ e ∈ evts, nonWindowBoundary e) :
    (BNRun s evts).2 = 0 := by
  induction evts generalizing s with
  | nil => rfl
  | cons e es ih =>
      have hstep := BNStep_idle_preserved s e hidle (hb e (by simp))
      simp only [BNRun]
      rw [hstep.2, ih (BNStep s e).1 hstep.1 (fun x hx => hb x (by simp [hx]))]
theorem sendBackstopNotification_idle_of_fired (s : BNState) (n : Nat)
    (h : (sendBackstopNotification s n).2 = true) :
    (sendBackstopNotification s n).1.idleNotificationSentSinceLastInteraction
      = true := by
  unfold sendBackstopNotification at h ⊢
  by_cases h1 : s.backstopSent = true ∨ s.backstopDisabled = true
  · simp [h1] at h
  · by_cases h2 : s.idleNotificationSentSinceLastInteraction = true
    · simp [h1, h2] at h
    · simp [h1, h2]

theorem mark_or_fire_nonWindowBoundary (e : BNEvent)
    (h : isMarkOrFire e = true) : nonWindowBoundary e := by
  unfold nonWindowBoundary
  cases e <;> simp [isMarkOrFire] at h ⊢

theorem BNStep_bell_preserved (s : BNState) (e : BNEvent)
    (hs : s.backstopSent = true) (he : isBellPreserving e = true) :
    (BNStep s e).1.backstopSent = true ∧ (BNStep s e).2 = 0 := by
  cases e with
  | timerFire n => simp [BNStep, sendBackstopNotification, hs]
  | setBackstopSent b =>
      simp only [isBellPreserving] at he
      simp [BNStep, SetBackstopSentStep, he]
  | disableBackstopTimer n => simp [BNStep, DisableBackstopTimerStep, hs]
  | close => simp [BNStep, CloseStep, hs]
  | send n => simp [isBellPreserving] at he
  | markActivity n => simp [isBellPreserving] at he
  | resetSession n => simp [isBellPreserving] at he

/-- Claim C1, amended: between two consecutive User Interaction Events —
or from construction to the first one — the backstop path delivers at most
one notification, **provided no Session Reset occurs in between**: for
every engine state and every event sequence containing neither a
`DisableBackstopTimer` nor a `ResetSession` event, at most one
notification is delivered by `sendBackstopNotification`.  (The original
claim, which also allowed session resets inside the window, is refuted by
`claim_C1_counterexample`.) -/
theorem claim_C1 (s : BNState) (evts : List BNEvent) :
    (∀ e ∈ evts, nonWindowBoundary e) → (BNRun s evts).2 ≤ 1 := by
  induction evts generalizing s with
  | nil => intro _; simp [BNRun]
  | cons e es ih =>
      intro hb
      simp only [BNRun]
      rcases Nat.eq_zero_or_pos (BNStep s e).2 with h0 | hpos
      · have hih := ih (BNStep s e).1 (fun x hx => hb x (by simp [hx]))
        omega
      · have hidle := BNStep_idle_of_delivered s e hpos
        have hz := BNRun_zero_of_idle (BNStep s e).1 es hidle
          (fun x hx => hb x (by simp [hx]))
        have h1 := BNStep_delivered_le_one s e
        omega

/-- Witness for C1: a concrete boundary-free event sequence (timer fire,
then activity, then another fire) delivers at most one notification. -/
theorem claim_C1_witness :
    (BNRun (NewBackstopNotifier 5 0)
      [BNEvent.timerFire 5, BNEvent.markActivity 6, BNEvent.timerFire 11]).2
      ≤ 1 :=
  claim_C1 _ _ (by decide)

/-- Counterexample to C1 as stated: with a session reset (one of the events
the claim allows inside the window) between two timer fires and no user
interaction anywhere, the backstop path delivers two notifications. -/
theorem claim_C1_counterexample :
    (BNRun (NewBackstopNotifier 5 0)
      [BNEvent.timerFire 5, BNEvent.resetSession 6, BNEvent.timerFire 11]).2
      = 2 := by
  decide

/-- Claim C2: after the backstop notification has fired, any interleaving
of further `MarkActivity` calls and timer fires delivers no second
notification, while each `MarkActivity` still re-arms the one-shot timer
at the configured timeout. -/
theorem claim_C2 (s : BNState) (n0 : Nat) (evts : List BNEvent)
    (hfired : (sendBackstopNotification s n0).2 = true)
    (hevts : ∀ e ∈ evts, isMarkOrFire e = true) :
    (BNRun (sendBackstopNotification s n0).1 evts).2 = 0 ∧
      (∀ (t : BNState) (n : Nat), 0 < t.timeout →
        (MarkActivityStep t n).timer = some (n + t.timeout)) := by
  constructor
  · exact BNRun_zero_of_idle _ _
      (sendBackstopNotification_idle_of_fired s n0 hfired)
      (fun e he => mark_or_fire_nonWindowBoundary e (hevts e he))
  · intro t n ht
    simp [MarkActivityStep, ht]

/-- Witness for C2: from a fresh engine whose timer fires at 5 (delivering
once), the interleaving [activity, fire, activity, fire] delivers nothing
further, and the first activity re-arms the timer to deadline 11. -/
theorem claim_C2_witness :
    (BNRun (sendBackstopNotification (NewBackstopNotifier 5 0) 5).1
      [BNEvent.markActivity 6, BNEvent.timerFire 11, BNEvent.markActivity 12,
        BNEvent.timerFire 17]).2 = 0 ∧
      (MarkActivityStep (NewBackstopNotifier 5 0) 6).timer = some 11 := by
  have h := claim_C2 (NewBackstopNotifier 5 0) 5
    [BNEvent.markActivity 6, BNEvent.timerFire 11, BNEvent.markActivity 12,
      BNEvent.timerFire 17] (by decide) (by decide)
  exact ⟨h.1, h.2 (NewBackstopNotifier 5 0) 6 (by decide)⟩

/-- Claim C3, amended: `BackstopNotifier.Send` stamps the activity and
notification times, clears `backstopSent`, cancels any pending deadline
and re-arms a fresh one at the configured timeout (when `timeout > 0`);
it leaves `backstopDisabled` **unchanged** (the original claim said it
clears it; refuted by `claim_C3_counterexample`) and also leaves the
since-last-interaction flag unchanged. -/
theorem claim_C3 (s : BNState) (now : Nat) :
    (SendStep s now).backstopSent = false ∧
    (SendStep s now).backstopDisabled = s.backstopDisabled ∧
    (SendStep s now).idleNotificationSentSinceLastInteraction =
      s.idleNotificationSentSinceLastInteraction ∧
    (SendStep s now).lastActivityTime = now ∧
    (SendStep s now).lastNotificationTime = now ∧
    (0 < s.timeout → (SendStep s now).timer = some (now + s.timeout)) ∧
    (s.timeout = 0 → (SendStep s now).timer = none) := by
  refine ⟨rfl, rfl, rfl, rfl, rfl, ?_, ?_⟩
  · intro h
    simp [SendStep, h]
  · intro h
    simp [SendStep, h]

/-- Witness for C3: on a fresh engine with timeout 5, `Send` at instant 7
clears `backstopSent` and re-arms the deadline to 12. -/
theorem claim_C3_witness :
    (SendStep (NewBackstopNotifier 5 0) 7).backstopSent = false ∧
      (SendStep (NewBackstopNotifier 5 0) 7).timer = some 12 :=
  ⟨(claim_C3 (NewBackstopNotifier 5 0) 7).1,
   (claim_C3 (NewBackstopNotifier 5 0) 7).2.2.2.2.2.1 (by decide)⟩

/-- Counterexample to C3 as stated: after user input disabled the backstop,
a `Send` leaves `backstopDisabled` set — it does not clear the "disabled"
flag as the claim asserts. -/
theorem claim_C3_counterexample :
    (SendStep (DisableBackstopTimerStep (NewBackstopNotifier 5 0) 1) 2).backstopDisabled
      = true := by
  decide

/-- Claim C4, amended: once a Bell Event has set `backstopSent` (via
`SetBackstopSent true`), the idle backstop stays suppressed **until the
next Activity Event, `Send`, or Session Reset** — for every event sequence
consisting only of timer fires, further bells, user interactions and
`Close`, nothing is delivered.  (The original "for the remainder of the
session" is refuted by `claim_C4_counterexample`: a later `MarkActivity`
clears the flag and a subsequent timer fire delivers.) -/
theorem claim_C4 (s : BNState) (evts : List BNEvent) :
    s.backstopSent = true → (∀ e ∈ evts, isBellPreserving e = true) →
    (BNRun s evts).2 = 0 := by
  induction evts generalizing s with
  | nil => intro _ _; rfl
  | cons e es ih =>
      intro hs hevts
      have hstep := BNStep_bell_preserved s e hs (hevts e (by simp))
      simp only [BNRun]
      rw [hstep.2, ih _ hstep.1 (fun x hx => hevts x (by simp [hx]))]

/-- Witness for C4: after a bell, a sequence of timer fires and a user
interaction delivers nothing. -/
theorem claim_C4_witness :
    (BNRun (SetBackstopSentStep (NewBackstopNotifier 5 0) true)
      [BNEvent.timerFire 6, BNEvent.disableBackstopTimer 7,
        BNEvent.timerFire 12]).2 = 0 :=
  claim_C4 _ _ (by decide) (by decide)

/-- Counterexample to C4 as stated: a completed line containing BEL does
set the flag, but `MarkActivity` afterwards clears it, and the next timer
fire within the same session delivers a notification — the suppression is
not for the remainder of the session. -/
theorem claim_C4_counterexample :
    processLineBell [66, 101, 108, 108, 7] = true ∧
      (BNRun (NewBackstopNotifier 5 0)
        [BNEvent.setBackstopSent true, BNEvent.markActivity 1,
          BNEvent.timerFire 6]).2 = 1 := by
  decide

/-- Claim C9: `TerminalState.SetFocused` with the already-current value is
a complete no-op (state record unchanged, in particular the last
focus-change timestamp); the timestamp is updated exactly when the focus
value actually changes. -/
theorem claim_C9 (ts : TerminalState) (v : Bool) (now : Nat) :
    (ts.focused = v → TerminalState.SetFocused ts v now = ts) ∧
    (ts.focused ≠ v →
      (TerminalState.SetFocused ts v now).lastFocusChange = now ∧
      (TerminalState.SetFocused ts v now).focused = v ∧
      (TerminalState.SetFocused ts v now).title = ts.title ∧
      (TerminalState.SetFocused ts v now).focusReportingEnabled =
        ts.focusReportingEnabled) := by
  constructor
  · intro h
    simp [TerminalState.SetFocused, h]
  · intro h
    simp [TerminalState.SetFocused, h]

/-- Witness for C9: setting `focused := true` on a freshly constructed
(already focused) state changes nothing; setting `false` stamps the
change instant. -/
theorem claim_C9_witness :
    TerminalState.SetFocused (NewTerminalState 3) true 9 = NewTerminalState 3 ∧
      (TerminalState.SetFocused (NewTerminalState 3) false 9).lastFocusChange
        = 9 :=
  ⟨(claim_C9 (NewTerminalState 3) true 9).1 rfl,
   ((claim_C9 (NewTerminalState 3) false 9).2 (by decide)).1⟩
theorem splitLines_spec (buf : List Nat) :
    10 ∉ (splitLines buf).2 ∧
      ((splitLines buf).1.map (fun l => l ++ [10])).flatten ++ (splitLines buf).2
        = buf := by
  induction buf with
  | nil => simp [splitLines]
  | cons b rest ih =>
      obtain ⟨ih1, ih2⟩ := ih
      rcases hsp : splitLines rest with ⟨lines, rem⟩
      rw [hsp] at ih1 ih2
      simp only [splitLines, hsp]
      by_cases hb : b = 10
      · subst hb
        simp only [if_pos rfl]
        refine ⟨by simpa using ih1, ?_⟩
        simpa using ih2
      · cases lines with
        | nil =>
            simp only [if_neg hb]
            simp only [List.map_nil, List.flatten, List.nil_append] at ih2 ⊢
            subst ih2
            simp only [List.mem_cons, not_or]
            refine ⟨⟨?_, by simpa using ih1⟩, trivial⟩
            omega
        | cons l ls =>
            simp only [if_neg hb]
            refine ⟨by simpa using ih1, ?_⟩
            simp only [List.map_cons, List.flatten] at ih2 ⊢
            rw [← ih2]
            simp

theorem runMonitor_spec (chunks : List (List Nat)) :
    ∀ buf : List Nat, 10 ∉ buf →
      10 ∉ (runMonitor buf chunks).2 ∧
        ((runMonitor buf chunks).1.map (fun l => l ++ [10])).flatten ++
          (runMonitor buf chunks).2 = buf ++ chunks.flatten := by
  induction chunks with
  | nil =>
      intro buf hb
      simpa [runMonitor] using hb
  | cons c cs ih =>
      intro buf hb
      have h1 := splitLines_spec (buf ++ c)
      have h2 := ih (splitLines (buf ++ c)).2 h1.1
      simp only [runMonitor, HandleDataLines]
      refine ⟨h2.1, ?_⟩
      rw [List.map_append, List.flatten_append, List.append_assoc, h2.2,
        ← List.append_assoc, h1.2]
      simp

/-- Claim C10: starting from an empty line buffer, after any sequence of
`HandleData` calls the internal line buffer contains no newline byte, the
completed lines passed to `processLine` (each re-terminated with `0x0A`)
followed by the buffered remainder reconstruct the whole byte stream
exactly (so every completed line is scanned exactly once and the buffer
holds exactly the bytes after the last newline), and `Flush` passes the
final partial line exactly once (when non-empty). -/
theorem claim_C10 (chunks : List (List Nat)) :
    10 ∉ (runMonitor [] chunks).2 ∧
      ((runMonitor [] chunks).1.map (fun l => l ++ [10])).flatten ++
        (runMonitor [] chunks).2 = chunks.flatten ∧
      ((runMonitor [] chunks).2 ≠ [] →
        FlushLines (runMonitor [] chunks).2 = [(runMonitor [] chunks).2]) ∧
      ((runMonitor [] chunks).2 = [] →
        FlushLines (runMonitor [] chunks).2 = []) := by
  have h := runMonitor_spec chunks [] (by simp)
  refine ⟨h.1, by simpa using h.2, ?_, ?_⟩
  · intro hne
    simp [FlushLines, hne]
  · intro he
    simp [FlushLines, he]

/-- Witness for C10: the stream `"h\np"` then `"q"` leaves buffer `"pq"`
(no newline), and `Flush` emits exactly that line. -/
theorem claim_C10_witness :
    10 ∉ (runMonitor [] [[104, 10, 112], [113]]).2 ∧
      FlushLines (runMonitor [] [[104, 10, 112], [113]]).2 = [[112, 113]] := by
  have h := claim_C10 [[104, 10, 112], [113]]
  refine ⟨h.1, ?_⟩
  rw [h.2.2.1 (by decide)]
  decide

theorem trimBuf_eq_reverse (l : List Nat) :
    trimBuf l = (l.reverse.take maxBufferSize).reverse := by
  have h : trimBuf l = l.rtake maxBufferSize := by
    unfold trimBuf List.rtake
    split
    · rfl
    · rename_i hl
      have h0 : l.length - maxBufferSize = 0 := by
        unfold maxBufferSize at *
        omega
      rw [h0, List.drop_zero]
  rw [h, List.rtake_eq_reverse_take_reverse]

theorem take_append_take (N : Nat) (a b : List Nat) :
    (a ++ b.take N).take N = (a ++ b).take N := by
  rw [List.take_append_eq_append_take, List.take_append_eq_append_take,
    List.take_take]
  have : min (N - a.length) N = N - a.length := by omega
  rw [this]

theorem trimBuf_append (x y : List Nat) :
    trimBuf (trimBuf x ++ y) = trimBuf (x ++ y) := by
  rw [trimBuf_eq_reverse, trimBuf_eq_reverse x, trimBuf_eq_reverse]
  congr 1
  rw [List.reverse_append, List.reverse_reverse, List.reverse_append]
  exact take_append_take maxBufferSize y.reverse x.reverse

theorem runDetect_buffer (chunks : List (List Nat)) :
    ∀ x : List Nat,
      (runDetect ⟨trimBuf x⟩ chunks).1.buffer = trimBuf (x ++ chunks.flatten) := by
  induction chunks with
  | nil =>
      intro x
      simp [runDetect]
  | cons c cs ih =>
      intro x
      simp only [runDetect, DetectSequencesStep]
      rw [trimBuf_append]
      have := ih (x ++ c)
      simpa [List.append_assoc] using this

/-- Claim C7: after every sequence of `DetectSequences` calls the rolling
buffer holds at most 512 bytes, and its contents are exactly the most
recent bytes of the concatenated input stream — the tail 512 bytes when
the stream exceeds the cap, the whole stream otherwise. -/
theorem claim_C7 (chunks : List (List Nat)) :
    (runDetect NewTerminalSequenceDetector chunks).1.buffer.length ≤ 512 ∧
      (runDetect NewTerminalSequenceDetector chunks).1.buffer =
        chunks.flatten.drop (chunks.flatten.length - 512) := by
  have h : (runDetect NewTerminalSequenceDetector chunks).1.buffer
      = trimBuf chunks.flatten := by
    have h0 : NewTerminalSequenceDetector = (⟨trimBuf []⟩ : Detector) := rfl
    rw [h0, runDetect_buffer chunks []]
    rfl
  rw [h]
  unfold trimBuf maxBufferSize
  split
  · rename_i hl
    refine ⟨?_, rfl⟩
    rw [List.length_drop]
    omega
  · rename_i hl
    have h0 : chunks.flatten.length - 512 = 0 := by omega
    rw [h0, List.drop_zero]
    exact ⟨by omega, rfl⟩
theorem cvc_cons (b : Nat) (rest : List Nat) :
    containsVisibleContent (b :: rest) =
      if b = 27 then
        (match rest with
         | [] => false
         | next :: rest2 =>
           if next = 91 then containsVisibleContent (skipCSI rest2)
           else if next = 93 then containsVisibleContent (skipOSC rest2)
           else if next = 40 ∨ next = 41 then
             containsVisibleContent (rest2.drop 1)
           else containsVisibleContent rest2)
      else if b = 155 then containsVisibleContent (skipCSI rest)
      else if b = 10 ∨ b = 13 ∨ b = 9 then true
      else if 32 ≤ b ∧ b ≤ 126 then true
      else if 128 ≤ b then true
      else containsVisibleContent rest := by
  cases rest with
  | nil => simp [containsVisibleContent]
  | cons c r => simp [containsVisibleContent]

theorem skipCSI_body (body : List Nat) (f : Nat) (l : List Nat)
    (hbody : ∀ c ∈ body, ¬ finalByte c) (hf : finalByte f) :
    skipCSI (body ++ f :: l) = l := by
  induction body with
  | nil =>
      unfold finalByte at hf
      simp [skipCSI, hf]
  | cons c body ih =>
      have hc := hbody c (by simp)
      unfold finalByte at hc
      simp only [List.cons_append, skipCSI]
      rw [if_neg hc]
      exact ih (fun x hx => hbody x (by simp [hx]))

theorem skipOSC_body (body term l : List Nat)
    (hbody : ∀ c ∈ body, c ≠ 7 ∧ c ≠ 27)
    (hterm : term = [7] ∨ term = [27, 92]) :
    skipOSC (body ++ (term ++ l)) = l := by
  induction body with
  | nil =>
      rcases hterm with h | h <;> subst h
      · simp [skipOSC]
      · simp [skipOSC]
  | cons c body ih =>
      have hc := hbody c (by simp)
      simp only [List.cons_append, skipOSC]
      rw [if_neg hc.1, if_neg (fun hh => hc.2 hh.1)]
      exact ih (fun x hx => hbody x (by simp [hx]))

theorem cvc_visible (v : Nat) (l : List Nat) (hv : visibleByte v) :
    containsVisibleContent (v :: l) = true := by
  unfold visibleByte at hv
  obtain ⟨hvis, h155⟩ := hv
  rw [cvc_cons]
  rcases hvis with h | h | h | h | h
  · subst h
    simp
  · subst h
    simp
  · subst h
    simp
  · rw [if_neg (by omega), if_neg (by omega), if_neg (by omega), if_pos h]
  · rw [if_neg (by omega), if_neg h155, if_neg (by omega), if_neg (by omega),
      if_pos h]

theorem cvc_tok (t : List Nat) (ht : NoiseTok t) (l : List Nat) :
    containsVisibleContent (t ++ l) = containsVisibleContent l := by
  cases ht with
  | csi body f hbody hf =>
      have hsk := skipCSI_body body f l hbody hf
      have he : (27 :: 91 :: (body ++ [f])) ++ l = 27 :: 91 :: (body ++ f :: l) := by
        simp
      rw [he, cvc_cons]
      simp [hsk]
  | osc body term hbody hterm =>
      have hsk := skipOSC_body body term l hbody hterm
      have he : (27 :: 93 :: (body ++ term)) ++ l
          = 27 :: 93 :: (body ++ (term ++ l)) := by
        simp
      rw [he, cvc_cons]
      simp [hsk]
  | charset op x hop =>
      have he : ([27, op, x] : List Nat) ++ l = 27 :: op :: x :: l := by
        simp
      rw [he, cvc_cons]
      rcases hop with h | h <;> subst h <;> simp
  | csi8 body f hbody hf =>
      have hsk := skipCSI_body body f l hbody hf
      have he : (155 :: (body ++ [f])) ++ l = 155 :: (body ++ f :: l) := by
        simp
      rw [he, cvc_cons]
      simp [hsk]
  | ctrl b hb =>
      unfold controlByte at hb
      show containsVisibleContent (b :: l) = containsVisibleContent l
      rw [cvc_cons]
      rw [if_neg (by omega), if_neg (by omega), if_neg (by omega),
        if_neg (by omega), if_neg (by omega)]

theorem cvc_noise_append (n : List Nat) (hn : Noise n) :
    ∀ l, containsVisibleContent (n ++ l) = containsVisibleContent l := by
  induction hn with
  | nil => intro l; rfl
  | cons t r ht _ ih =>
      intro l
      rw [List.append_assoc, cvc_tok t ht (r ++ l)]
      exact ih l

/-- Claim C5, amended: the classifier returns `false` on every byte slice
consisting only of recognized escape/control tokens (CSI, OSC,
`ESC (x`/`ESC )x`, bare `0x9B` CSI, non-visible control bytes), and
returns `true` whenever a visible byte (printable ASCII, `\n`, `\r`,
tab, or `≥ 0x80` other than the CSI introducer `0x9B`) follows such a
token sequence.  The original claim, which promised `true` for a visible
byte anywhere outside a recognized sequence, fails when the visible byte
immediately follows a stray `ESC` that opens no recognized sequence: the
scanner consumes the byte after a bare `ESC` unchecked
(`claim_C5_counterexample`). -/
theorem claim_C5 :
    (∀ l, Noise l → containsVisibleContent l = false) ∧
      (∀ (n : List Nat) (v : Nat) (l : List Nat), Noise n → visibleByte v →
        containsVisibleContent (n ++ v :: l) = true) := by
  constructor
  · intro l hl
    have h := cvc_noise_append l hl []
    simpa [containsVisibleContent] using h
  · intro n v l hn hv
    rw [cvc_noise_append n hn (v :: l)]
    exact cvc_visible v l hv

/-- Witness for C5: the pure CSI sequence `ESC [2J` is classified
invisible, and the same sequence followed by the printable byte `A` is
classified visible. -/
theorem claim_C5_witness :
    containsVisibleContent [27, 91, 50, 74] = false ∧
      containsVisibleContent [27, 91, 50, 74, 65] = true := by
  have ht : NoiseTok (27 :: 91 :: ([50] ++ [74])) :=
    NoiseTok.csi [50] 74 (by decide) (by decide)
  have hnoise : Noise [27, 91, 50, 74] := by
    have h := Noise.cons _ _ ht Noise.nil
    simpa using h
  refine ⟨claim_C5.1 _ hnoise, ?_⟩
  have h2 := claim_C5.2 [27, 91, 50, 74] 65 [] hnoise (by decide)
  simpa using h2

/-- Counterexample to C5 as stated: `ESC` followed by printable `A` — the
`A` lies outside every recognized escape sequence (a bare `ESC A` is none
of CSI/OSC/charset/8-bit-CSI), yet the classifier returns `false`,
because the byte after an unrecognized `ESC` is consumed without a
visibility check; `A` alone is classified visible. -/
theorem claim_C5_counterexample :
    containsVisibleContent [27, 65] = false ∧ (32 ≤ 65 ∧ 65 ≤ 126) ∧
      containsVisibleContent [65] = true := by
  refine ⟨?_, by omega, ?_⟩
  · simp [containsVisibleContent]
  · simp [containsVisibleContent]

theorem scanList_cvc (l : List Nat) :
    (scanList ScanState.top l = containsVisibleContent l) ∧
      (scanList ScanState.sawEsc l = containsVisibleContent (27 :: l)) ∧
      (scanList ScanState.inCSI l = containsVisibleContent (skipCSI l)) ∧
      (scanList ScanState.inOSC l = containsVisibleContent (skipOSC l)) ∧
      (scanList ScanState.inOSCEsc l
        = containsVisibleContent (skipOSC (27 :: l))) ∧
      (scanList ScanState.sawCharset l = containsVisibleContent (l.drop 1)) := by
  induction l with
  | nil =>
      refine ⟨?_, ?_, ?_, ?_, ?_, ?_⟩ <;>
        simp [scanList, containsVisibleContent, skipCSI, skipOSC]
  | cons b rest ih =>
      obtain ⟨ihA, ihB, ihC, ihD, ihE, ihF⟩ := ih
      refine ⟨?_, ?_, ?_, ?_, ?_, ?_⟩
      · -- top state
        by_cases h27 : b = 27
        · subst h27
          have hL : scanList ScanState.top (27 :: rest)
              = scanList ScanState.sawEsc rest := by
            simp [scanList, scanByte]
          rw [hL, ihB]
        · by_cases h155 : b = 155
          · subst h155
            have hL : scanList ScanState.top (155 :: rest)
                = scanList ScanState.inCSI rest := by
              simp [scanList, scanByte]
            have hR : containsVisibleContent (155 :: rest)
                = containsVisibleContent (skipCSI rest) := by
              rw [cvc_cons]
              simp
            rw [hL, hR, ihC]
          · by_cases hnrt : b = 10 ∨ b = 13 ∨ b = 9
            · have hL : scanList ScanState.top (b :: rest) = true := by
                rcases hnrt with h | h | h <;> subst h <;>
                  simp [scanList, scanByte]
              have hR : containsVisibleContent (b :: rest) = true := by
                rw [cvc_cons]
                rcases hnrt with h | h | h <;> subst h <;> simp
              rw [hL, hR]
            · by_cases hrange : 32 ≤ b ∧ b ≤ 126
              · have hsb : scanByte ScanState.top b = Sum.inr true := by
                  simp only [scanByte]
                  rw [if_neg h27, if_neg h155, if_neg hnrt, if_pos hrange]
                have hR : containsVisibleContent (b :: rest) = true := by
                  rw [cvc_cons]
                  rw [if_neg h27, if_neg h155, if_neg hnrt, if_pos hrange]
                simp [scanList, hsb, hR]
              · by_cases h128 : 128 ≤ b
                · have hsb : scanByte ScanState.top b = Sum.inr true := by
                    simp only [scanByte]
                    rw [if_neg h27, if_neg h155, if_neg hnrt, if_neg hrange,
                      if_pos h128]
                  have hR : containsVisibleContent (b :: rest) = true := by
                    rw [cvc_cons]
                    rw [if_neg h27, if_neg h155, if_neg hnrt, if_neg hrange,
                      if_pos h128]
                  simp [scanList, hsb, hR]
                · have hsb : scanByte ScanState.top b
                      = Sum.inl ScanState.top := by
                    simp only [scanByte]
                    rw [if_neg h27, if_neg h155, if_neg hnrt, if_neg hrange,
                      if_neg h128]
                  have hR : containsVisibleContent (b :: rest)
                      = containsVisibleContent rest := by
                    rw [cvc_cons]
                    rw [if_neg h27, if_neg h155, if_neg hnrt, if_neg hrange,
                      if_neg h128]
                  simp only [scanList, hsb]
                  rw [hR, ihA]
      · -- sawEsc state
        have hR0 : containsVisibleContent (27 :: b :: rest)
            = (if b = 91 then containsVisibleContent (skipCSI rest)
               else if b = 93 then containsVisibleContent (skipOSC rest)
               else if b = 40 ∨ b = 41 then
                 containsVisibleContent (rest.drop 1)
               else containsVisibleContent rest) := by
          rw [cvc_cons]
          simp
        by_cases h91 : b = 91
        · subst h91
          have hL : scanList ScanState.sawEsc (91 :: rest)
              = scanList ScanState.inCSI rest := by
            simp [scanList, scanByte]
          rw [hL, hR0]
          simp [ihC]
        · by_cases h93 : b = 93
          · subst h93
            have hL : scanList ScanState.sawEsc (93 :: rest)
                = scanList ScanState.inOSC rest := by
              simp [scanList, scanByte]
            rw [hL, hR0]
            simp [ihD]
          · by_cases h40 : b = 40 ∨ b = 41
            · have hL : scanList ScanState.sawEsc (b :: rest)
                  = scanList ScanState.sawCharset rest := by
                rcases h40 with h | h <;> subst h <;> simp [scanList, scanByte]
              rw [hL, hR0, if_neg h91, if_neg h93, if_pos h40, ihF]
            · have hsb : scanByte ScanState.sawEsc b
                  = Sum.inl ScanState.top := by
                simp only [scanByte]
                rw [if_neg h91, if_neg h93, if_neg h40]
              simp only [scanList, hsb]
              rw [hR0, if_neg h91, if_neg h93, if_neg h40, ihA]
      · -- inCSI state
        by_cases hfin : 64 ≤ b ∧ b ≤ 126
        · have hsb : scanByte ScanState.inCSI b = Sum.inl ScanState.top := by
            simp only [scanByte]
            rw [if_pos hfin]
          have hsk : skipCSI (b :: rest) = rest := by
            simp only [skipCSI]
            rw [if_pos hfin]
          simp only [scanList, hsb]
          rw [hsk, ihA]
        · have hsb : scanByte ScanState.inCSI b = Sum.inl ScanState.inCSI := by
            simp only [scanByte]
            rw [if_neg hfin]
          have hsk : skipCSI (b :: rest) = skipCSI rest := by
            simp only [skipCSI]
            rw [if_neg hfin]
          simp only [scanList, hsb]
          rw [hsk, ihC]
      · -- inOSC state
        by_cases h7 : b = 7
        · subst h7
          have hsk : skipOSC (7 :: rest) = rest := by
            simp [skipOSC]
          have hL : scanList ScanState.inOSC (7 :: rest)
              = scanList ScanState.top rest := by
            simp [scanList, scanByte]
          rw [hL, hsk, ihA]
        · by_cases h27b : b = 27
          · subst h27b
            have hL : scanList ScanState.inOSC (27 :: rest)
                = scanList ScanState.inOSCEsc rest := by
              simp [scanList, scanByte]
            rw [hL, ihE]
          · have hsk : skipOSC (b :: rest) = skipOSC rest := by
              simp only [skipOSC]
              rw [if_neg h7, if_neg (fun hh => h27b hh.1)]
            have hsb : scanByte ScanState.inOSC b
                = Sum.inl ScanState.inOSC := by
              simp only [scanByte]
              rw [if_neg h7, if_neg h27b]
            simp only [scanList, hsb]
            rw [hsk, ihD]
      · -- inOSCEsc state
        have hstep : skipOSC (27 :: b :: rest)
            = (if b = 92 then rest else skipOSC (b :: rest)) := by
          simp only [skipOSC]
          rw [if_neg (by omega)]
          by_cases h92 : b = 92
          · rw [if_pos (by simp [h92]), if_pos h92]
            simp
          · rw [if_neg (by simp [h92]), if_neg h92]
        by_cases h92 : b = 92
        · subst h92
          have hL : scanList ScanState.inOSCEsc (92 :: rest)
              = scanList ScanState.top rest := by
            simp [scanList, scanByte]
          rw [hL, hstep, if_pos rfl, ihA]
        · rw [hstep, if_neg h92]
          by_cases h7 : b = 7
          · subst h7
            have hsk : skipOSC (7 :: rest) = rest := by
              simp [skipOSC]
            have hL : scanList ScanState.inOSCEsc (7 :: rest)
                = scanList ScanState.top rest := by
              simp [scanList, scanByte]
            rw [hL, hsk, ihA]
          · by_cases h27b : b = 27
            · subst h27b
              have hL : scanList ScanState.inOSCEsc (27 :: rest)
                  = scanList ScanState.inOSCEsc rest := by
                simp [scanList, scanByte]
              rw [hL, ihE]
            · have hsk : skipOSC (b :: rest) = skipOSC rest := by
                simp only [skipOSC]
                rw [if_neg h7, if_neg (fun hh => h27b hh.1)]
              have hsb : scanByte ScanState.inOSCEsc b
                  = Sum.inl ScanState.inOSC := by
                simp only [scanByte]
                rw [if_neg h92, if_neg h7, if_neg h27b]
              simp only [scanList, hsb]
              rw [hsk, ihD]
      · -- sawCharset state
        have hL : scanList ScanState.sawCharset (b :: rest)
            = scanList ScanState.top rest := by
          simp [scanList, scanByte]
        rw [hL]
        simp only [List.drop_succ_cons, List.drop_zero]
        exact ihA

/-- Claim C8: the classifier is total and is computed by a bounds-safe,
forward-only single pass: the scanner `scanList`, which consumes exactly
one byte per step (structural recursion on the input, hence terminating on
every byte slice, including slices truncated mid-escape-sequence), agrees
with `containsVisibleContent` on every input. -/
theorem claim_C8 (l : List Nat) :
    scanList ScanState.top l = containsVisibleContent l :=
  (scanList_cvc l).1

theorem trimBuf_small (l : List Nat) (h : l.length ≤ 512) : trimBuf l = l := by
  unfold trimBuf maxBufferSize
  rw [if_neg (by omega)]

theorem runDetect_quiet : ∀ (chunks : List (List Nat)) (pre : List Nat),
    chunks ≠ [] →
    (pre ++ chunks.flatten).length ≤ 512 →
    (∀ k < chunks.length, detectEvents (pre ++ (chunks.take k).flatten) = []) →
    (runDetect ⟨pre⟩ chunks).2 = detectEvents (pre ++ chunks.flatten) := by
  intro chunks
  induction chunks with
  | nil => intro pre h; exact absurd rfl h
  | cons c cs ih =>
      intro pre _ hlen hpre
      have htrim : trimBuf (pre ++ c) = pre ++ c := by
        refine trimBuf_small _ ?_
        simp only [List.flatten_cons, List.length_append] at hlen ⊢
        omega
      simp only [runDetect, DetectSequencesStep, htrim]
      cases cs with
      | nil => simp [runDetect]
      | cons c2 cs2 =>
          have h1 : detectEvents (pre ++ c) = [] := by
            have h := hpre 1 (by simp)
            simpa using h
          have h2 := ih (pre ++ c) (by simp)
            (by simpa [List.append_assoc] using hlen)
            (by
              intro k hk
              have h := hpre (k + 1) (by simpa using hk)
              simpa [List.append_assoc] using h)
          rw [h1, h2]
          simp

/-- Claim C6, amended: splitting input across successive `DetectSequences`
calls yields the same handler events as one call, **provided no complete
recognized sequence lies within a proper prefix of the chunk sequence**
(formally: every proper prefix of the chunks yields no events) and the
total input fits in the 512-byte rolling buffer.  In particular,
`"\x1b[2"` then `"J"` fires exactly one screen-clear event, the same as
`"\x1b[2J"` in one call (`claim_C6_witness`).  The original unrestricted
claim is refuted by `claim_C6_counterexample`: the rolling buffer retains
an already-matched sequence, so a chunk arriving after a completed
sequence re-fires its events. -/
theorem claim_C6 (chunks : List (List Nat))
    (hlen : chunks.flatten.length ≤ 512)
    (hpre : ∀ k < chunks.length, detectEvents ((chunks.take k).flatten) = []) :
    (runDetect NewTerminalSequenceDetector chunks).2
      = detectEvents chunks.flatten := by
  cases chunks with
  | nil =>
      show ([] : List TEvent) = detectEvents []
      decide
  | cons c cs =>
      have h := runDetect_quiet (c :: cs) [] (by simp) (by simpa using hlen)
        (by simpa using hpre)
      simpa [NewTerminalSequenceDetector] using h

/-- Witness for C6: `"\x1b[2"` then `"J"` produces exactly one
screen-clear event, identical to delivering `"\x1b[2J"` in one call. -/
theorem claim_C6_witness :
    (runDetect NewTerminalSequenceDetector [[27, 91, 50], [74]]).2
      = [TEvent.screenClear] := by
  have h := claim_C6 [[27, 91, 50], [74]] (by decide) (by decide)
  rw [h]
  decide

/-- Counterexample to C6 as stated: the complete sequence `"\x1b[2J"`
followed in a second call by the unrelated byte `"X"` fires screen-clear
twice (the rolling buffer still contains the matched sequence), while the
concatenation in a single call fires it once. -/
theorem claim_C6_counterexample :
    (runDetect NewTerminalSequenceDetector [[27, 91, 50, 74], [88]]).2
      = [TEvent.screenClear, TEvent.screenClear] ∧
      detectEvents ([27, 91, 50, 74] ++ [88]) = [TEvent.screenClear] := by
  decide

end GeminiNtfy
